import Mathlib

/-!
Verification of the stemr LNA core (`src/propose_lna.cpp`, `src/lna_density2.cpp`,
`src/pars2lnapars.cpp`) against its specification.

Shallow embedding conventions:
* Armadillo vectors and matrices are total functions `Nat → ℚ` and `Nat → Nat → ℚ`
  together with explicit dimension fields; entries beyond the stated dimensions are
  irrelevant junk.  Armadillo stores matrices column-major, which matters when the
  flat ODE buffer is copied into the diffusion matrix.
* Floating-point numbers are modelled by exact rationals.  The two transcendental
  scalar primitives that the core applies pointwise — `arma::exp` in the
  increment map and the scalar square root inside the Cholesky factorization —
  have no exact rational counterpart and are supplied as function-valued inputs
  (`exp`, `sqrt`); none of the verified claims depends on their numeric values.
* The external collaborators declared out of scope by the specification (the ODE
  integration service `CALL_INTEGRATE_STEM_LNA` and the multivariate-normal
  log-density `dmvtn`) are supplied as deterministic function-valued inputs, as
  the specification's interface section describes them.
* The i.i.d. standard-normal perturbations `arma::randn` are modelled as an
  input stream `draws`, matching the specification's determinism property
  ("given identical perturbation draws, the Proposer produces an identical path").
* The parameter-setting callback `CALL_SET_LNA_PARAMS` mutates external state and
  returns nothing; we record the list of vectors pushed to it.
* `arma::chol(A, "lower")` calls LAPACK `dpotrf`, which runs the lower
  Cholesky–Banachiewicz recurrence and fails as soon as a pivot is not strictly
  positive; `chol` below implements exactly that recurrence over ℚ.
* A C++ `try { ... } catch (std::runtime_error&) { forward_exception_to_r(...) }`
  aborts the whole call (the forwarded error never returns), so the Proposer is
  embedded as an `Except Unit` computation.
-/

/-- Pivot of column `j` of the lower Cholesky recurrence: `A j j - ∑_{k<j} (L j k)^2`. -/
def cholPivot (L A : Nat → Nat → ℚ) (j : Nat) : ℚ :=
  A j j - ∑ k ∈ Finset.range j, (L j k) ^ 2

/-- Fill column `j` of the lower Cholesky factor, given the columns `< j` in `L`. -/
def cholEntry (sq : ℚ → ℚ) (L A : Nat → Nat → ℚ) (j : Nat) : Nat → Nat → ℚ :=
  fun i k =>
    if k = j then
      if i = j then sq (cholPivot L A j)
      else if j < i then
        (A i j - ∑ m ∈ Finset.range j, L i m * L j m) / sq (cholPivot L A j)
      else 0
    else L i k

/-- First `j` columns of the lower Cholesky factor of `A`; `none` as soon as a pivot
is not strictly positive, which is exactly when LAPACK `dpotrf` reports failure. -/
def cholAux (sq : ℚ → ℚ) (A : Nat → Nat → ℚ) : Nat → Option (Nat → Nat → ℚ)
  | 0 => some fun _ _ => 0
  | j + 1 =>
    match cholAux sq A j with
    | none => none
    | some L => if 0 < cholPivot L A j then some (cholEntry sq L A j) else none

/-- Lower Cholesky factorization of the `n × n` matrix `A`, modelling
`arma::chol(A, "lower")`: `some L` on success, `none` when the decomposition fails. -/
def chol (sq : ℚ → ℚ) (n : Nat) (A : Nat → Nat → ℚ) : Option (Nat → Nat → ℚ) :=
  cholAux sq A n

/-- `arma::symmatu`: reflect the upper triangle onto the lower triangle. -/
def symmatu (M : Nat → Nat → ℚ) : Nat → Nat → ℚ :=
  fun r c => if r ≤ c then M r c else M c r

/-- The all-zero ODE buffer (`std::fill(..., 0.0)` resets the state vector). -/
def zeroVec : Nat → ℚ := fun _ => 0

/-- Inputs of `propose_lna` (`src/propose_lna.cpp`).  `integrate` is the external
ODE integration service `(params, state, t_L, t_R, tol) ↦ new state`; `draws` is the
stream of standard-normal perturbations, column `j` being interval `j`'s draw. -/
structure PropIn where
  n_events : Nat
  n_comps : Nat
  n_times : Nat
  lna_times : Nat → ℚ
  lna_pars : Nat → Nat → ℚ
  init_start : Nat
  param_update_inds : Nat → Bool
  stoich_matrix : Nat → Nat → ℚ
  draws : Nat → Nat → ℚ
  integrate : (Nat → ℚ) → (Nat → ℚ) → ℚ → ℚ → ℚ → (Nat → ℚ)
  exp : ℚ → ℚ
  sqrt : ℚ → ℚ

/-- Loop state of the Proposer: the cumulative incidence, the path matrix
(row 0 = times, rows `1..n_events` = events, one column per time point), the
current parameter vector, and the history of vectors pushed to
`CALL_SET_LNA_PARAMS` (oldest first). -/
structure PropState where
  c_incid : Nat → ℚ
  path : Nat → Nat → ℚ
  current_params : Nat → ℚ
  pushed : List (Nat → ℚ)

/-- `init_state`: the initial compartment volumes, copied out of parameter row 0
at entry (`arma::vec init_state(current_params.begin() + init_start, n_comps)`
copies its source and is never refreshed). -/
def init_state (I : PropIn) : Nat → ℚ :=
  fun c => I.lna_pars 0 (I.init_start + c)

/-- Proposer state before the first interval: zero cumulative incidence, path
holding the time row, current parameters = parameter row 0, which has already
been pushed to the callback once. -/
def propInit (I : PropIn) : PropState where
  c_incid := fun _ => 0
  path := fun r c => if r = 0 then I.lna_times c else 0
  current_params := fun i => I.lna_pars 0 i
  pushed := [fun i => I.lna_pars 0 i]

/-- Result of integrating the LNA ODEs over interval `j` from the zero-reset
buffer (`propose_lna` refills `lna_state_vec` with 0 before every call). -/
def lna_state_res (I : PropIn) (s : PropState) (j : Nat) : Nat → ℚ :=
  I.integrate s.current_params zeroVec (I.lna_times j) (I.lna_times (j + 1)) (1 / 1000)

/-- `lna_drift`: the first `n_events` entries of the integrated buffer. -/
def lna_drift (I : PropIn) (s : PropState) (j : Nat) : Nat → ℚ :=
  fun e => lna_state_res I s j e

/-- `lna_diffusion` after `symmatu`: the remaining `n_events²` buffer entries,
copied column-major into an `n_events × n_events` matrix, then symmetrized. -/
def lna_diffusion (I : PropIn) (s : PropState) (j : Nat) : Nat → Nat → ℚ :=
  symmatu fun r c => lna_state_res I s j (I.n_events + c * I.n_events + r)

/-- `log_lna`: the log-scale increment `lna_drift + L * draws.col(j)` for a lower
Cholesky factor `L` of the symmetrized diffusion matrix. -/
def log_lna (I : PropIn) (s : PropState) (j : Nat) (L : Nat → Nat → ℚ) : Nat → ℚ :=
  fun e => lna_drift I s j e + ∑ k ∈ Finset.range I.n_events, L e k * I.draws k j

/-- `nat_lna`: the natural-scale increment `exp(log_lna) - 1` with every negative
entry clamped to 0 (`nat_lna.elem(find(nat_lna < 0)).zeros()`). -/
def nat_lna (I : PropIn) (s : PropState) (j : Nat) (L : Nat → Nat → ℚ) : Nat → ℚ :=
  fun e => max (I.exp (log_lna I s j L e) - 1) 0

/-- The successful body of interval `j` of the Proposer loop, given the lower
Cholesky factor `L`: accumulate the clamped increment into the cumulative
incidence, write it into path column `j+1` (rows `1..n_events`), recompute and
clamp the compartment volumes, refresh the parameter row if flagged, overwrite
the volume columns, and push the result to the callback. -/
def proposeStepOk (I : PropIn) (s : PropState) (j : Nat) (L : Nat → Nat → ℚ) : PropState :=
  let c_incid' : Nat → ℚ := fun e => s.c_incid e + nat_lna I s j L e
  let path' : Nat → Nat → ℚ := fun r c =>
    if c = j + 1 ∧ 1 ≤ r ∧ r ≤ I.n_events then c_incid' (r - 1) else s.path r c
  let init_volumes : Nat → ℚ := fun c =>
    max (init_state I c + ∑ e ∈ Finset.range I.n_events, I.stoich_matrix c e * c_incid' e) 0
  let params1 : Nat → ℚ :=
    if I.param_update_inds (j + 1) then (fun i => I.lna_pars (j + 1) i) else s.current_params
  let params2 : Nat → ℚ := fun i =>
    if I.init_start ≤ i ∧ i < I.init_start + I.n_comps then init_volumes (i - I.init_start)
    else params1 i
  { c_incid := c_incid'
    path := path'
    current_params := params2
    pushed := s.pushed ++ [params2] }

/-- Interval `j` of the Proposer loop.  `arma::chol` failure is forwarded to the
host (`forward_exception_to_r` aborts the call), hence the `Except`. -/
def proposeStep (I : PropIn) (s : PropState) (j : Nat) : Except Unit PropState :=
  match chol I.sqrt I.n_events (lna_diffusion I s j) with
  | none => .error ()
  | some L => .ok (proposeStepOk I s j L)

/-- State of the Proposer after the first `k` intervals (or the error that
aborted it). -/
def loopState (I : PropIn) : Nat → Except Unit PropState
  | 0 => .ok (propInit I)
  | k + 1 =>
    match loopState I k with
    | .error e => .error e
    | .ok s => proposeStep I s k

/-- Output of `propose_lna`: the perturbation draws and the transposed path
(`lna_path.t()`: one row per time point, column 0 = time, columns `1..n_events`
= cumulative incidence per event). -/
structure PropOut where
  draws : Nat → Nat → ℚ
  lna_path : Nat → Nat → ℚ

/-- `propose_lna`: run the interval loop over `j = 0 … n_times-2` and return the
draws together with the transposed path, or the forwarded Cholesky failure. -/
def propose_lna (I : PropIn) : Except Unit PropOut :=
  match loopState I (I.n_times - 1) with
  | .error e => .error e
  | .ok s => .ok { draws := I.draws, lna_path := fun r c => s.path c r }

/-- `true` when the Proposer loop completes its first `j` intervals. -/
def runOk (I : PropIn) (j : Nat) : Bool :=
  match loopState I j with
  | .ok _ => true
  | .error _ => false

/-- The Proposer state after `j` intervals, defaulting to the initial state if
the loop failed before then. -/
def stateAt (I : PropIn) (j : Nat) : PropState :=
  match loopState I j with
  | .ok s => s
  | .error _ => propInit I

/-- The lower Cholesky factor taken at interval `j`, defaulting to 0 on failure. -/
def cholAt (I : PropIn) (j : Nat) : Nat → Nat → ℚ :=
  (chol I.sqrt I.n_events (lna_diffusion I (stateAt I j) j)).getD fun _ _ => 0

/-- The `.ok` payload of `propose_lna`, defaulting to the zero path on failure. -/
def proposeOutD (I : PropIn) : PropOut :=
  match propose_lna I with
  | .ok o => o
  | .error _ => { draws := I.draws, lna_path := fun _ _ => 0 }

/-- Inputs of `lna_density2` (`src/lna_density2.cpp`): the path bundle
`{lna_path, res_path, drift, residual, diffusion, data_log_lik}`, the time grid,
the parameter table and flags, the compartment count (`flow_matrix.n_rows`), the
external integrator, and the multivariate-normal log-density primitive `dmvtn`
`(point, mean, covariance) ↦ log-density` (always called with `log = true`). -/
structure EvalIn where
  n_comps : Nat
  n_times : Nat
  lna_times : Nat → ℚ
  lna_pars : Nat → Nat → ℚ
  param_update_inds : Nat → Bool
  lna_path : Nat → Nat → ℚ
  res_path : Nat → Nat → ℚ
  drift : Nat → Nat → ℚ
  residual : Nat → Nat → ℚ
  diffusion : Nat → Nat → Nat → ℚ
  data_log_lik : ℚ
  integrate : (Nat → ℚ) → (Nat → ℚ) → ℚ → ℚ → ℚ → (Nat → ℚ)
  dmvtn : (Nat → ℚ) → (Nat → ℚ) → (Nat → Nat → ℚ) → ℚ

/-- Loop state of the Evaluator: the ODE state buffer (zeroed once, never reset
between intervals), the current parameter vector, the residual process being
overwritten row by row, and the running log-likelihood. -/
structure EvalState where
  lna_state_vec : Nat → ℚ
  current_params : Nat → ℚ
  residual_process : Nat → Nat → ℚ
  lna_log_lik : ℚ

/-- Evaluator state before the first interval: zero ODE buffer, parameter row 0
current, the supplied residual process, zero log-likelihood. -/
def evalInit (I : EvalIn) : EvalState where
  lna_state_vec := fun _ => 0
  current_params := fun i => I.lna_pars 0 i
  residual_process := I.residual
  lna_log_lik := 0

/-- The parameter vector in effect at interval `j` of the Evaluator: refreshed
from parameter row `j-1` when flagged, otherwise the previous vector. -/
def evalParams (I : EvalIn) (s : EvalState) (j : Nat) : Nat → ℚ :=
  if I.param_update_inds (j - 1) then (fun i => I.lna_pars (j - 1) i) else s.current_params

/-- The ODE buffer after integrating interval `j` of the Evaluator in place from
`t[j-1]` to `t[j]` with tolerance 1.0 (drift and residual ODEs only). -/
def evalIntegrate (I : EvalIn) (s : EvalState) (j : Nat) : Nat → ℚ :=
  I.integrate (evalParams I s j) s.lna_state_vec (I.lna_times (j - 1)) (I.lna_times j) 1

/-- Interval `j` of the Evaluator loop (`j = 1 … n_times-1`): refresh parameters
if flagged, integrate in place, store the residual sub-vector into
`residual_process` row `j`, add the log-density of the observed residual path row
`j` (columns `1..n_comps`) at the fresh mean and the supplied diffusion slice `j`,
then copy the observed residual row back into the buffer's residual entries. -/
def evalStep (I : EvalIn) (s : EvalState) (j : Nat) : EvalState :=
  let params := evalParams I s j
  let integrated := evalIntegrate I s j
  let residual_process' : Nat → Nat → ℚ := fun r c =>
    if r = j ∧ c < I.n_comps then integrated (I.n_comps + c) else s.residual_process r c
  let ll : ℚ :=
    I.dmvtn (fun c => I.res_path j (c + 1)) (residual_process' j) (I.diffusion j)
  let state' : Nat → ℚ := fun i =>
    if I.n_comps ≤ i ∧ i < 2 * I.n_comps then I.res_path j (i - I.n_comps + 1)
    else integrated i
  { lna_state_vec := state'
    current_params := params
    residual_process := residual_process'
    lna_log_lik := s.lna_log_lik + ll }

/-- Evaluator state after processing intervals `1 … k`. -/
def evalState (I : EvalIn) : Nat → EvalState
  | 0 => evalInit I
  | k + 1 => evalStep I (evalState I k) (k + 1)

/-- Output of `lna_density2`: the returned list, field by field. -/
structure EvalOut where
  lna_path : Nat → Nat → ℚ
  res_path : Nat → Nat → ℚ
  drift : Nat → Nat → ℚ
  residual : Nat → Nat → ℚ
  diffusion : Nat → Nat → Nat → ℚ
  data_log_lik : ℚ
  lna_log_lik : ℚ

/-- `lna_density2`: run the interval loop over `j = 1 … n_times-1` and return the
bundle with the updated residual process and the accumulated log-likelihood. -/
def lna_density2 (I : EvalIn) : EvalOut :=
  { lna_path := I.lna_path
    res_path := I.res_path
    drift := I.drift
    residual := (evalState I (I.n_times - 1)).residual_process
    diffusion := I.diffusion
    data_log_lik := I.data_log_lik
    lna_log_lik := (evalState I (I.n_times - 1)).lna_log_lik }

/-- `pars2lnapars` (`src/pars2lnapars.cpp`):
`lnapars.cols(0, n_pars-1).each_row() = parameters` overwrites the first
`parameters.length` columns of every row with `parameters`, broadcast across
rows.  The in-place mutation is modelled by returning the updated matrix;
the C++ function itself returns nothing. -/
def pars2lnapars (lnapars : List (List ℚ)) (parameters : List ℚ) : List (List ℚ) :=
  lnapars.map fun row => parameters ++ row.drop parameters.length

theorem loopState_eq_ok {I : PropIn} {j : Nat} (h : runOk I j = true) :
    loopState I j = .ok (stateAt I j) := by
  unfold runOk at h
  cases h' : loopState I j with
  | ok s => simp [stateAt, h']
  | error e => rw [h'] at h; simp at h

theorem runOk_of_succ {I : PropIn} {k : Nat} (h : runOk I (k + 1) = true) :
    runOk I k = true := by
  unfold runOk at *
  cases h' : loopState I k with
  | ok s => rfl
  | error e =>
    rw [loopState, h'] at h
    exact absurd h (by simp)

theorem runOk_mono {I : PropIn} {j k : Nat} (hjk : j ≤ k) (h : runOk I k = true) :
    runOk I j = true := by
  induction k with
  | zero => exact Nat.le_zero.mp hjk ▸ h
  | succ k ih =>
    rcases Nat.eq_or_lt_of_le hjk with rfl | hlt
    · exact h
    · exact ih (Nat.lt_succ_iff.mp hlt) (runOk_of_succ h)

theorem loopState_error_mono {I : PropIn} {j : Nat} (h : loopState I j = .error ()) :
    ∀ k, j ≤ k → loopState I k = .error () := by
  intro k hk
  induction k with
  | zero => exact Nat.le_zero.mp hk ▸ h
  | succ k ih =>
    rcases Nat.eq_or_lt_of_le hk with rfl | hlt
    · exact h
    · have hke := ih (Nat.lt_succ_iff.mp hlt)
      simp only [loopState, hke]

theorem stateAt_succ {I : PropIn} {k : Nat} (h : runOk I (k + 1) = true) :
    proposeStep I (stateAt I k) k = .ok (stateAt I (k + 1)) := by
  have h1 := loopState_eq_ok (runOk_of_succ h)
  have h2 := loopState_eq_ok h
  rw [loopState, h1] at h2
  exact h2

theorem chol_some_of_stepOk {I : PropIn} {s s' : PropState} {j : Nat}
    (h : proposeStep I s j = .ok s') :
    ∃ L, chol I.sqrt I.n_events (lna_diffusion I s j) = some L ∧
      s' = proposeStepOk I s j L := by
  unfold proposeStep at h
  cases hc : chol I.sqrt I.n_events (lna_diffusion I s j) with
  | none => rw [hc] at h; cases h
  | some L =>
    rw [hc] at h
    simp only [Except.ok.injEq] at h
    exact ⟨L, rfl, h.symm⟩

theorem stateAt_zero (I : PropIn) : stateAt I 0 = propInit I := rfl

theorem stepOk_c_incid (I : PropIn) (s : PropState) (j : Nat) (L : Nat → Nat → ℚ) (e : Nat) :
    (proposeStepOk I s j L).c_incid e = s.c_incid e + nat_lna I s j L e := rfl

theorem stepOk_path (I : PropIn) (s : PropState) (j : Nat) (L : Nat → Nat → ℚ) (r c : Nat) :
    (proposeStepOk I s j L).path r c
      = if c = j + 1 ∧ 1 ≤ r ∧ r ≤ I.n_events
        then s.c_incid (r - 1) + nat_lna I s j L (r - 1)
        else s.path r c := rfl

theorem stepOk_params (I : PropIn) (s : PropState) (j : Nat) (L : Nat → Nat → ℚ) (i : Nat) :
    (proposeStepOk I s j L).current_params i
      = if I.init_start ≤ i ∧ i < I.init_start + I.n_comps
        then max (init_state I (i - I.init_start)
            + ∑ e ∈ Finset.range I.n_events,
                I.stoich_matrix (i - I.init_start) e * (proposeStepOk I s j L).c_incid e) 0
        else if I.param_update_inds (j + 1) then I.lna_pars (j + 1) i
        else s.current_params i := by
  by_cases hf : I.param_update_inds (j + 1) = true
  · simp [proposeStepOk, hf]
  · simp only [Bool.not_eq_true] at hf
    simp [proposeStepOk, hf]

theorem stepOk_pushed (I : PropIn) (s : PropState) (j : Nat) (L : Nat → Nat → ℚ) :
    (proposeStepOk I s j L).pushed
      = s.pushed ++ [(proposeStepOk I s j L).current_params] := rfl

theorem path_col_stable {I : PropIn} {k : Nat} (h : runOk I (k + 1) = true)
    (r c : Nat) (hc : c ≤ k) :
    (stateAt I (k + 1)).path r c = (stateAt I k).path r c := by
  obtain ⟨L, hL, hs⟩ := chol_some_of_stepOk (stateAt_succ h)
  rw [hs, stepOk_path, if_neg]
  rintro ⟨rfl, -⟩
  omega

theorem path_eq_c_incid {I : PropIn} :
    ∀ k, runOk I k = true → ∀ e, e < I.n_events → ∀ c, c ≤ k →
      (stateAt I k).path (e + 1) c = (stateAt I c).c_incid e := by
  intro k
  induction k with
  | zero =>
    intro _ e _ c hc
    obtain rfl : c = 0 := Nat.le_zero.mp hc
    simp [stateAt_zero, propInit]
  | succ k ih =>
    intro h e he c hc
    rcases Nat.eq_or_lt_of_le hc with rfl | hlt
    · obtain ⟨L, hL, hs⟩ := chol_some_of_stepOk (stateAt_succ h)
      rw [hs, stepOk_path, if_pos ⟨rfl, by omega, by omega⟩, stepOk_c_incid]
      simp
    · have hck : c ≤ k := Nat.lt_succ_iff.mp hlt
      rw [path_col_stable h _ _ hck]
      exact ih (runOk_of_succ h) e he c hck

theorem c_incid_mono {I : PropIn} {k : Nat} (h : runOk I (k + 1) = true) (e : Nat) :
    (stateAt I k).c_incid e ≤ (stateAt I (k + 1)).c_incid e := by
  obtain ⟨L, hL, hs⟩ := chol_some_of_stepOk (stateAt_succ h)
  rw [hs, stepOk_c_incid]
  exact le_add_of_nonneg_right (le_max_right _ _)

theorem propose_ok_elim {I : PropIn} {out : PropOut} (h : propose_lna I = .ok out) :
    runOk I (I.n_times - 1) = true ∧
      out.lna_path = fun r c => (stateAt I (I.n_times - 1)).path c r := by
  unfold propose_lna at h
  cases h' : loopState I (I.n_times - 1) with
  | error e => rw [h'] at h; cases h
  | ok s =>
    rw [h'] at h
    simp only [Except.ok.injEq] at h
    constructor
    · unfold runOk; rw [h']
    · rw [← h]
      have : stateAt I (I.n_times - 1) = s := by simp [stateAt, h']
      rw [this]

theorem propose_lna_eq_outD {I : PropIn} (h : runOk I (I.n_times - 1) = true) :
    propose_lna I = .ok (proposeOutD I) := by
  have h1 : propose_lna I
      = .ok { draws := I.draws
              lna_path := fun r c => (stateAt I (I.n_times - 1)).path c r } := by
    unfold propose_lna
    rw [loopState_eq_ok h]
  rw [h1]
  unfold proposeOutD
  rw [h1]

theorem propose_lna_eq_error {I : PropIn} (h : runOk I (I.n_times - 1) = false) :
    propose_lna I = .error () := by
  unfold runOk at h
  cases h' : loopState I (I.n_times - 1) with
  | ok s => rw [h'] at h; simp at h
  | error e =>
    unfold propose_lna
    rw [h']

theorem getLast?_append_singleton {α : Type} (l : List α) (a : α) :
    (l ++ [a]).getLast? = some a := by
  rw [List.getLast?_append_cons]
  rfl

theorem pushed_length {I : PropIn} :
    ∀ k, runOk I k = true → (stateAt I k).pushed.length = k + 1 := by
  intro k
  induction k with
  | zero => intro _; rfl
  | succ k ih =>
    intro h
    obtain ⟨L, hL, hs⟩ := chol_some_of_stepOk (stateAt_succ h)
    rw [hs, stepOk_pushed, List.length_append, List.length_singleton,
      ih (runOk_of_succ h)]

theorem current_params_nonvolume {I : PropIn}
    (hflags : ∀ i, 1 ≤ i → I.param_update_inds i = false) :
    ∀ k, runOk I k = true → ∀ i, i < I.init_start ∨ I.init_start + I.n_comps ≤ i →
      (stateAt I k).current_params i = I.lna_pars 0 i := by
  intro k
  induction k with
  | zero => intro _ i _; rfl
  | succ k ih =>
    intro h i hi
    obtain ⟨L, hL, hs⟩ := chol_some_of_stepOk (stateAt_succ h)
    rw [hs, stepOk_params, if_neg (by omega), hflags (k + 1) (by omega)]
    simp only [Bool.false_eq_true, if_false]
    exact ih (runOk_of_succ h) i hi

theorem current_params_volume {I : PropIn} {j : Nat} (h : runOk I (j + 1) = true) :
    ∀ c, c < I.n_comps →
      (stateAt I (j + 1)).current_params (I.init_start + c)
        = max (init_state I c
            + ∑ e ∈ Finset.range I.n_events,
                I.stoich_matrix c e * (stateAt I (j + 1)).c_incid e) 0 := by
  intro c hc
  obtain ⟨L, hL, hs⟩ := chol_some_of_stepOk (stateAt_succ h)
  conv_lhs => rw [hs, stepOk_params, if_pos ⟨Nat.le_add_right _ _, by omega⟩]
  rw [Nat.add_sub_cancel_left, ← hs]

theorem pushed_getLast {I : PropIn} {j : Nat} (h : runOk I (j + 1) = true) :
    (stateAt I (j + 1)).pushed.getLast? = some ((stateAt I (j + 1)).current_params) := by
  obtain ⟨L, hL, hs⟩ := chol_some_of_stepOk (stateAt_succ h)
  rw [hs, stepOk_pushed, getLast?_append_singleton]

/-- C1: for every interval `j` of a completed Proposer run, the log-scale
increment is the integrated drift plus the lower Cholesky factor of the
symmetrized diffusion matrix times the interval's draw, the natural-scale
increment is `exp` of it minus 1 with negatives clamped to 0, and the returned
path's row `j+1` is row `j` plus that already-clamped increment (clamp before
accumulating). -/
theorem propose_lna_increment_recurrence (I : PropIn) (out : PropOut) (j e : Nat)
    (hout : propose_lna I = .ok out) (hj : j + 1 < I.n_times) (he : e < I.n_events) :
    out.lna_path (j + 1) (e + 1)
      = out.lna_path j (e + 1)
        + max (I.exp (lna_drift I (stateAt I j) j e
            + ∑ k ∈ Finset.range I.n_events, cholAt I j e k * I.draws k j) - 1) 0 := by
  obtain ⟨hrun, hpath⟩ := propose_ok_elim hout
  have hj1 : j + 1 ≤ I.n_times - 1 := by omega
  have hrun1 : runOk I (j + 1) = true := runOk_mono hj1 hrun
  obtain ⟨L, hL, hs⟩ := chol_some_of_stepOk (stateAt_succ hrun1)
  have hcholAt : cholAt I j = L := by simp [cholAt, hL]
  rw [hpath]
  simp only []
  rw [path_eq_c_incid _ hrun e he (j + 1) hj1,
    path_eq_c_incid _ hrun e he j (le_trans (Nat.le_succ j) hj1),
    hs, stepOk_c_incid, hcholAt]
  rfl

/-- C2: on every input where the Proposer completes, each event column of the
returned path is non-decreasing across time points. -/
theorem propose_lna_path_monotone (I : PropIn) (out : PropOut) (e t : Nat)
    (hout : propose_lna I = .ok out) (he1 : 1 ≤ e) (he2 : e ≤ I.n_events)
    (ht : t + 1 < I.n_times) :
    out.lna_path t e ≤ out.lna_path (t + 1) e := by
  obtain ⟨hrun, hpath⟩ := propose_ok_elim hout
  have he : e - 1 < I.n_events := by omega
  have hee : e - 1 + 1 = e := by omega
  have ht1 : t + 1 ≤ I.n_times - 1 := by omega
  rw [hpath]
  simp only []
  rw [← hee,
    path_eq_c_incid _ hrun (e - 1) he t (le_trans (Nat.le_succ t) ht1),
    path_eq_c_incid _ hrun (e - 1) he (t + 1) ht1]
  exact c_incid_mono (runOk_mono ht1 hrun) _

/-- C3: after every interval the parameter vector pushed to the callback is the
loop's current-parameter vector, whose compartment-volume entries equal the
initial volumes of parameter row 0 plus the stoichiometry matrix times the
current cumulative incidence, clamped at 0 — hence non-negative.  The theorem
holds for arbitrary update flags: `init_state` is row 0's volumes, never
refreshed. -/
theorem propose_lna_volumes_pushed (I : PropIn) (j : Nat)
    (hj : j + 1 < I.n_times) (hrun : runOk I (j + 1) = true) :
    (stateAt I (j + 1)).pushed.getLast? = some ((stateAt I (j + 1)).current_params) ∧
    ∀ c, c < I.n_comps →
      (stateAt I (j + 1)).current_params (I.init_start + c)
        = max (init_state I c
            + ∑ e ∈ Finset.range I.n_events,
                I.stoich_matrix c e * (stateAt I (j + 1)).c_incid e) 0 ∧
      0 ≤ (stateAt I (j + 1)).current_params (I.init_start + c) := by
  refine ⟨pushed_getLast hrun, fun c hc => ⟨current_params_volume hrun c hc, ?_⟩⟩
  rw [current_params_volume hrun c hc]
  exact le_max_right _ _

/-- C5: if the Cholesky factorization of the symmetrized diffusion matrix fails
at a reached interval, `propose_lna` returns the forwarded numerical failure and
never an `.ok` path. -/
theorem propose_lna_chol_failure_surfaces (I : PropIn) (j : Nat)
    (hj : j + 1 < I.n_times) (hrun : runOk I j = true)
    (hchol : chol I.sqrt I.n_events (lna_diffusion I (stateAt I j) j) = none) :
    propose_lna I = .error () ∧ ∀ out, propose_lna I ≠ .ok out := by
  have hstep : proposeStep I (stateAt I j) j = .error () := by
    unfold proposeStep
    rw [hchol]
  have hloop : loopState I (j + 1) = .error () := by
    rw [loopState, loopState_eq_ok hrun]
    exact hstep
  have hfin : loopState I (I.n_times - 1) = .error () :=
    loopState_error_mono hloop _ (by omega)
  constructor
  · unfold propose_lna
    rw [hfin]
  · intro out hcon
    unfold propose_lna at hcon
    rw [hfin] at hcon
    cases hcon

/-- C8: when every update flag after index 0 is false, the non-volume entries of
the current-parameter vector stay equal to parameter row 0 after every interval,
while the volume entries are still overwritten with the freshly computed clamped
volumes, and one vector has been pushed to the callback per interval (plus the
initial push). -/
theorem propose_lna_params_not_reloaded (I : PropIn) (j : Nat)
    (hflags : ∀ i, 1 ≤ i → I.param_update_inds i = false)
    (hj : j + 1 < I.n_times) (hrun : runOk I (j + 1) = true) :
    (∀ i, i < I.init_start ∨ I.init_start + I.n_comps ≤ i →
        (stateAt I (j + 1)).current_params i = I.lna_pars 0 i) ∧
    (∀ c, c < I.n_comps →
        (stateAt I (j + 1)).current_params (I.init_start + c)
          = max (init_state I c
              + ∑ e ∈ Finset.range I.n_events,
                  I.stoich_matrix c e * (stateAt I (j + 1)).c_incid e) 0) ∧
    (stateAt I (j + 1)).pushed.length = j + 2 := by
  exact ⟨current_params_nonvolume hflags (j + 1) hrun,
    current_params_volume hrun, pushed_length (j + 1) hrun⟩

/-- Concrete Proposer input for the witnesses: one event, one compartment, two
time points, integrator reporting drift 0 and diffusion 1, all flags false. -/
def WpropA : PropIn where
  n_events := 1
  n_comps := 1
  n_times := 2
  lna_times := fun t => (t : ℚ)
  lna_pars := fun _ c => if c = 0 then 10 else 5
  init_start := 1
  param_update_inds := fun _ => false
  stoich_matrix := fun _ _ => -1
  draws := fun _ _ => 1
  integrate := fun _ _ _ _ _ => fun i => if i = 1 then 1 else 0
  exp := fun x => x + 1
  sqrt := fun x => x

/-- Concrete Proposer input whose first interval has integrated drift 0 and
diffusion 0 (the integrator leaves the zero-reset buffer at zero). -/
def WpropZero : PropIn where
  n_events := 1
  n_comps := 1
  n_times := 2
  lna_times := fun t => (t : ℚ)
  lna_pars := fun _ c => if c = 0 then 10 else 5
  init_start := 1
  param_update_inds := fun _ => false
  stoich_matrix := fun _ _ => -1
  draws := fun _ _ => 1
  integrate := fun _ _ _ _ _ => zeroVec
  exp := fun x => x + 1
  sqrt := fun x => x

/-- Like `WpropZero` but with three time points, so the failing interval is
strictly inside the loop. -/
def WpropZero3 : PropIn where
  n_events := 1
  n_comps := 1
  n_times := 3
  lna_times := fun t => (t : ℚ)
  lna_pars := fun _ c => if c = 0 then 10 else 5
  init_start := 1
  param_update_inds := fun _ => false
  stoich_matrix := fun _ _ => -1
  draws := fun _ _ => 1
  integrate := fun _ _ _ _ _ => zeroVec
  exp := fun x => x + 1
  sqrt := fun x => x

/-- C4 (divergence): on an interval whose integrated drift vector and diffusion
matrix are both zero, the Proposer does not produce the zero natural-scale
increment the claim states; the zero matrix is not positive definite, so the
Cholesky factorization fails and the whole call aborts with the forwarded
numerical error. -/
theorem propose_lna_zero_diffusion_errors : propose_lna WpropZero = .error () :=
  propose_lna_eq_error (by
    norm_num [runOk, loopState, proposeStep, chol, cholAux, cholPivot,
      lna_diffusion, lna_state_res, symmatu, zeroVec, WpropZero])

theorem propose_lna_increment_recurrence_witness :
    propose_lna WpropA = .ok (proposeOutD WpropA) ∧
    (proposeOutD WpropA).lna_path 1 1
      = (proposeOutD WpropA).lna_path 0 1
        + max (WpropA.exp (lna_drift WpropA (stateAt WpropA 0) 0 0
            + ∑ k ∈ Finset.range WpropA.n_events, cholAt WpropA 0 0 k * WpropA.draws k 0)
            - 1) 0 := by
  have hok : propose_lna WpropA = .ok (proposeOutD WpropA) :=
    propose_lna_eq_outD (by
      norm_num [runOk, loopState, proposeStep, chol, cholAux, cholPivot,
        lna_diffusion, lna_state_res, symmatu, zeroVec, WpropA])
  exact ⟨hok,
    propose_lna_increment_recurrence WpropA (proposeOutD WpropA) 0 0 hok
      (by decide) (by decide)⟩

theorem propose_lna_path_monotone_witness :
    propose_lna WpropA = .ok (proposeOutD WpropA) ∧
    (proposeOutD WpropA).lna_path 0 1 ≤ (proposeOutD WpropA).lna_path 1 1 := by
  have hok : propose_lna WpropA = .ok (proposeOutD WpropA) :=
    propose_lna_eq_outD (by
      norm_num [runOk, loopState, proposeStep, chol, cholAux, cholPivot,
        lna_diffusion, lna_state_res, symmatu, zeroVec, WpropA])
  exact ⟨hok,
    propose_lna_path_monotone WpropA (proposeOutD WpropA) 1 0 hok
      (by decide) (by decide) (by decide)⟩

theorem propose_lna_volumes_pushed_witness :
    (0 + 1 < WpropA.n_times ∧ runOk WpropA (0 + 1) = true) ∧
    (stateAt WpropA (0 + 1)).pushed.getLast?
      = some ((stateAt WpropA (0 + 1)).current_params) ∧
    (stateAt WpropA (0 + 1)).current_params (WpropA.init_start + 0)
      = max (init_state WpropA 0
          + ∑ e ∈ Finset.range WpropA.n_events,
              WpropA.stoich_matrix 0 e * (stateAt WpropA (0 + 1)).c_incid e) 0 ∧
    0 ≤ (stateAt WpropA (0 + 1)).current_params (WpropA.init_start + 0) := by
  have hj : 0 + 1 < WpropA.n_times := by decide
  have hrun : runOk WpropA (0 + 1) = true := by
    norm_num [runOk, loopState, proposeStep, chol, cholAux, cholPivot,
      lna_diffusion, lna_state_res, symmatu, zeroVec, WpropA]
  have h := propose_lna_volumes_pushed WpropA 0 hj hrun
  exact ⟨⟨hj, hrun⟩, h.1, (h.2 0 (by decide)).1, (h.2 0 (by decide)).2⟩

theorem propose_lna_chol_failure_surfaces_witness :
    (0 + 1 < WpropZero3.n_times ∧ runOk WpropZero3 0 = true ∧
      chol WpropZero3.sqrt WpropZero3.n_events
        (lna_diffusion WpropZero3 (stateAt WpropZero3 0) 0) = none) ∧
    propose_lna WpropZero3 = .error () ∧
    propose_lna WpropZero3 ≠ .ok (proposeOutD WpropZero3) := by
  have hj : 0 + 1 < WpropZero3.n_times := by decide
  have hrun : runOk WpropZero3 0 = true := rfl
  have hchol : chol WpropZero3.sqrt WpropZero3.n_events
      (lna_diffusion WpropZero3 (stateAt WpropZero3 0) 0) = none := by
    norm_num [chol, cholAux, cholPivot, lna_diffusion, lna_state_res, symmatu,
      zeroVec, stateAt, loopState, WpropZero3]
  have h := propose_lna_chol_failure_surfaces WpropZero3 0 hj hrun hchol
  exact ⟨⟨hj, hrun, hchol⟩, h.1, h.2 _⟩

theorem propose_lna_params_not_reloaded_witness :
    ((∀ i, 1 ≤ i → WpropA.param_update_inds i = false) ∧
      0 + 1 < WpropA.n_times ∧ runOk WpropA (0 + 1) = true) ∧
    (stateAt WpropA (0 + 1)).current_params 0 = WpropA.lna_pars 0 0 ∧
    (stateAt WpropA (0 + 1)).pushed.length = 0 + 2 := by
  have hflags : ∀ i, 1 ≤ i → WpropA.param_update_inds i = false := fun _ _ => rfl
  have hj : 0 + 1 < WpropA.n_times := by decide
  have hrun : runOk WpropA (0 + 1) = true := by
    norm_num [runOk, loopState, proposeStep, chol, cholAux, cholPivot,
      lna_diffusion, lna_state_res, symmatu, zeroVec, WpropA]
  have h := propose_lna_params_not_reloaded WpropA 0 hflags hj hrun
  exact ⟨⟨hflags, hj, hrun⟩, h.1 0 (Or.inl (by decide)), h.2.2⟩

theorem evalState_succ (I : EvalIn) (k : Nat) :
    evalState I (k + 1) = evalStep I (evalState I k) (k + 1) := rfl

theorem evalStep_residual (I : EvalIn) (s : EvalState) (j r c : Nat) :
    (evalStep I s j).residual_process r c
      = if r = j ∧ c < I.n_comps then evalIntegrate I s j (I.n_comps + c)
        else s.residual_process r c := rfl

theorem evalStep_loglik (I : EvalIn) (s : EvalState) (j : Nat) :
    (evalStep I s j).lna_log_lik
      = s.lna_log_lik
        + I.dmvtn (fun c => I.res_path j (c + 1)) ((evalStep I s j).residual_process j)
            (I.diffusion j) := rfl

theorem evalStep_state (I : EvalIn) (s : EvalState) (j i : Nat) :
    (evalStep I s j).lna_state_vec i
      = if I.n_comps ≤ i ∧ i < 2 * I.n_comps then I.res_path j (i - I.n_comps + 1)
        else evalIntegrate I s j i := rfl

theorem eval_residual_stable (I : EvalIn) (k r c : Nat) (hr : r ≤ k) :
    (evalState I (k + 1)).residual_process r c
      = (evalState I k).residual_process r c := by
  rw [evalState_succ, evalStep_residual, if_neg]
  rintro ⟨rfl, -⟩
  omega

theorem eval_residual_stable_le (I : EvalIn) (r c : Nat) :
    ∀ k' k, k ≤ k' → r ≤ k →
      (evalState I k').residual_process r c = (evalState I k).residual_process r c := by
  intro k'
  induction k' with
  | zero =>
    intro k hkk _
    obtain rfl := Nat.le_zero.mp hkk
    rfl
  | succ k' ih =>
    intro k hkk hrk
    rcases Nat.eq_or_lt_of_le hkk with rfl | h
    · rfl
    · rw [eval_residual_stable I k' r c (by omega)]
      exact ih k (by omega) hrk

theorem eval_residual_untouched (I : EvalIn) :
    ∀ k r c, r = 0 ∨ k < r ∨ I.n_comps ≤ c →
      (evalState I k).residual_process r c = I.residual r c := by
  intro k
  induction k with
  | zero => intro r c _; rfl
  | succ k ih =>
    intro r c h
    rw [evalState_succ, evalStep_residual, if_neg]
    · exact ih r c (by omega)
    · rintro ⟨rfl, hc⟩
      omega

theorem eval_residual_row (I : EvalIn) (r c : Nat) (hr : 1 ≤ r) (hc : c < I.n_comps) :
    (evalState I r).residual_process r c
      = evalIntegrate I (evalState I (r - 1)) r (I.n_comps + c) := by
  obtain ⟨k, rfl⟩ : ∃ k, r = k + 1 := ⟨r - 1, by omega⟩
  rw [evalState_succ, evalStep_residual, if_pos ⟨rfl, hc⟩]
  simp

theorem eval_loglik_sum (I : EvalIn) :
    ∀ k, (evalState I k).lna_log_lik
      = ∑ j ∈ Finset.Ico 1 (k + 1),
          I.dmvtn (fun c => I.res_path j (c + 1)) ((evalState I j).residual_process j)
            (I.diffusion j) := by
  intro k
  induction k with
  | zero => simp [evalState, evalInit]
  | succ k ih =>
    rw [Finset.sum_Ico_succ_top (by omega : 1 ≤ k + 1), ← ih, evalState_succ,
      evalStep_loglik]

/-- C6: the Evaluator's returned `lna_log_lik` is the sum over `j = 1 … n_times-1`
of the `dmvtn` log-density of the residual path's row `j` (columns `1..n_comps`,
skipping the time column) at mean the freshly reintegrated residual-process row
`j` and covariance the supplied diffusion slice `j`; the diffusion process is
taken from the input bundle, never recomputed. -/
theorem lna_density2_loglik_sum (I : EvalIn) :
    (lna_density2 I).lna_log_lik
      = ∑ j ∈ Finset.Ico 1 I.n_times,
          I.dmvtn (fun c => I.res_path j (c + 1)) ((lna_density2 I).residual j)
            (I.diffusion j) := by
  show (evalState I (I.n_times - 1)).lna_log_lik = _
  rw [eval_loglik_sum]
  rcases Nat.eq_zero_or_pos I.n_times with h0 | hpos
  · rw [h0]
    simp
  · rw [Nat.sub_add_cancel hpos]
    refine Finset.sum_congr rfl fun j hj => ?_
    rw [Finset.mem_Ico] at hj
    have hres : (lna_density2 I).residual j = (evalState I j).residual_process j := by
      funext c
      exact eval_residual_stable_le I j c (I.n_times - 1) j (by omega) le_rfl
    rw [hres]

/-- C7: `lna_density2` passes `lna_path`, `res_path`, the drift process, the
diffusion process and `data_log_lik` through unchanged; of the bundle only the
residual process is modified — its rows `1 … n_times-1` (columns `< n_comps`)
are overwritten with the reintegrated conditional means, everything else in it
is returned as supplied — and `lna_log_lik` is the only new quantity. -/
theorem lna_density2_frame (I : EvalIn) :
    (lna_density2 I).lna_path = I.lna_path ∧
    (lna_density2 I).res_path = I.res_path ∧
    (lna_density2 I).drift = I.drift ∧
    (lna_density2 I).diffusion = I.diffusion ∧
    (lna_density2 I).data_log_lik = I.data_log_lik ∧
    ∀ r c, (lna_density2 I).residual r c
      = if 1 ≤ r ∧ r < I.n_times ∧ c < I.n_comps
        then evalIntegrate I (evalState I (r - 1)) r (I.n_comps + c)
        else I.residual r c := by
  refine ⟨rfl, rfl, rfl, rfl, rfl, fun r c => ?_⟩
  by_cases h : 1 ≤ r ∧ r < I.n_times ∧ c < I.n_comps
  · rw [if_pos h]
    show (evalState I (I.n_times - 1)).residual_process r c = _
    rw [eval_residual_stable_le I r c (I.n_times - 1) r (by omega) le_rfl]
    exact eval_residual_row I r c h.1 h.2.2
  · rw [if_neg h]
    show (evalState I (I.n_times - 1)).residual_process r c = _
    exact eval_residual_untouched I _ r c (by omega)

/-- C10: the Evaluator's ODE buffer is zeroed once before the loop and never
reset: entering interval `j ≥ 2`, its first `n_comps` entries still hold the
drift values integrated over interval `j-1`, and its entries
`n_comps … 2·n_comps-1` hold the observed residual path at row `j-1`, columns
`1 … n_comps`, copied in at the end of iteration `j-1`. -/
theorem lna_density2_state_carryover (I : EvalIn) (j : Nat)
    (h2 : 2 ≤ j) (hj : j < I.n_times) :
    (evalState I 0).lna_state_vec = zeroVec ∧
    (∀ i, i < I.n_comps →
        (evalState I (j - 1)).lna_state_vec i
          = evalIntegrate I (evalState I (j - 2)) (j - 1) i) ∧
    (∀ i, I.n_comps ≤ i → i < 2 * I.n_comps →
        (evalState I (j - 1)).lna_state_vec i
          = I.res_path (j - 1) (i - I.n_comps + 1)) := by
  obtain ⟨k, rfl⟩ : ∃ k, j = k + 2 := ⟨j - 2, by omega⟩
  refine ⟨rfl, fun i hi => ?_, fun i hi1 hi2 => ?_⟩
  · show (evalState I (k + 1)).lna_state_vec i = evalIntegrate I (evalState I k) (k + 1) i
    rw [evalState_succ, evalStep_state, if_neg]
    rintro ⟨hni, -⟩
    omega
  · show (evalState I (k + 1)).lna_state_vec i = I.res_path (k + 1) (i - I.n_comps + 1)
    rw [evalState_succ, evalStep_state, if_pos ⟨hi1, hi2⟩]

/-- C9: `pars2lnapars` overwrites the first `parameters.length` columns of every
row of the matrix with the parameter vector, broadcast across rows, leaving every
column at index `parameters.length` or beyond unchanged (given the presupposition
that the vector is no longer than the rows); the C++ function returns nothing and
mutates in place, modelled by returning the updated matrix. -/
theorem pars2lnapars_overwrite (lnapars : List (List ℚ)) (parameters : List ℚ)
    (r : Nat) (row : List ℚ) (hr : lnapars.get? r = some row)
    (hlen : parameters.length ≤ row.length) :
    ∃ row', (pars2lnapars lnapars parameters).get? r = some row' ∧
      row'.length = row.length ∧
      (∀ c, c < parameters.length → row'.get? c = parameters.get? c) ∧
      (∀ c, parameters.length ≤ c → row'.get? c = row.get? c) := by
  refine ⟨parameters ++ row.drop parameters.length, ?_, ?_, ?_, ?_⟩
  · show (lnapars.map fun row => parameters ++ row.drop parameters.length).get? r = _
    rw [List.get?_map, hr]
    rfl
  · rw [List.length_append, List.length_drop]
    omega
  · intro c hc
    rw [List.get?_append hc]
  · intro c hc
    rw [List.get?_append_right hc, List.get?_drop]
    congr 1
    omega

/-- Concrete Evaluator input for the witnesses: one compartment, three time
points, an integrator adding 1 to every buffer entry. -/
def WevalA : EvalIn where
  n_comps := 1
  n_times := 3
  lna_times := fun t => (t : ℚ)
  lna_pars := fun _ _ => 2
  param_update_inds := fun _ => false
  lna_path := fun _ _ => 0
  res_path := fun r c => (r : ℚ) * 10 + (c : ℚ)
  drift := fun _ _ => 0
  residual := fun _ _ => 0
  diffusion := fun _ _ _ => 1
  data_log_lik := 7
  integrate := fun _ s _ _ _ => fun i => s i + 1
  dmvtn := fun pt m cv => pt 0 + m 0 + cv 0 0

theorem lna_density2_state_carryover_witness :
    (2 ≤ 2 ∧ 2 < WevalA.n_times) ∧
    (evalState WevalA 0).lna_state_vec = zeroVec ∧
    (evalState WevalA (2 - 1)).lna_state_vec 0
      = evalIntegrate WevalA (evalState WevalA (2 - 2)) (2 - 1) 0 ∧
    (evalState WevalA (2 - 1)).lna_state_vec 1
      = WevalA.res_path (2 - 1) (1 - WevalA.n_comps + 1) := by
  have h2 : 2 ≤ 2 := le_rfl
  have hj : 2 < WevalA.n_times := by decide
  have h := lna_density2_state_carryover WevalA 2 h2 hj
  exact ⟨⟨h2, hj⟩, h.1, h.2.1 0 (by decide), h.2.2 1 (by decide) (by decide)⟩

theorem pars2lnapars_overwrite_witness :
    ([[(1 : ℚ), 2, 3], [4, 5, 6]].get? 0 = some [1, 2, 3] ∧
      [(7 : ℚ), 8].length ≤ [(1 : ℚ), 2, 3].length) ∧
    ∃ row', (pars2lnapars [[(1 : ℚ), 2, 3], [4, 5, 6]] [7, 8]).get? 0 = some row' ∧
      row'.length = [(1 : ℚ), 2, 3].length ∧
      (∀ c, c < [(7 : ℚ), 8].length → row'.get? c = [(7 : ℚ), 8].get? c) ∧
      (∀ c, [(7 : ℚ), 8].length ≤ c → row'.get? c = [(1 : ℚ), 2, 3].get? c) := by
  have h1 : [[(1 : ℚ), 2, 3], [4, 5, 6]].get? 0 = some [1, 2, 3] := rfl
  have h2 : [(7 : ℚ), 8].length ≤ [(1 : ℚ), 2, 3].length := by norm_num
  exact ⟨⟨h1, h2⟩, pars2lnapars_overwrite _ _ 0 _ h1 h2⟩
